import Mathlib

/-!
Verification of the ts-sandbox-server repository (src/main.ts and src/sandbox.ts).

The development shallowly embeds the two source files:
* JavaScript strings are modelled as lists of characters (`Str`).
* The filesystem is an explicit state (`FsState`): a list of existing
  directories plus an association list from file paths to contents.
* Every handler returns its HTTP response, the successor filesystem state and
  the ordered trace of filesystem operations it performed (`FsOp`), so that
  statements of the form "rejected before any filesystem call" are expressible.
* The nondeterminism of one execution (the random UUID, the behaviour of the
  spawned subprocess, the effect of the executed script on the workspace) is
  an explicit environment value (`ExecEnv`).
-/

namespace SandboxSrv

/-- Characters of a JavaScript string. -/
abbrev Str := List Char

/-- Model of JavaScript `String.prototype.includes`: `sub` occurs as a
contiguous substring. -/
def hasSub (sub : Str) : Str → Bool
  | [] => sub.isEmpty
  | c :: t => sub.isPrefixOf (c :: t) || hasSub sub t

/-- The string contains two adjacent dots. -/
def hasDD : Str → Bool
  | a :: b :: t => (a == '.' && b == '.') || hasDD (b :: t)
  | _ => false

/-- Model of `filename.replace(/\.\./g, '')` in src/main.ts line 122: delete
the leftmost-first non-overlapping occurrences of two adjacent dots. -/
def stripDotDot : Str → Str
  | [] => []
  | [c] => [c]
  | a :: b :: t => if a = '.' ∧ b = '.' then stripDotDot t else a :: stripDotDot (b :: t)

/-- Split a path string at forward slashes into its path segments. -/
def splitSlash : Str → List Str
  | [] => [[]]
  | c :: rest =>
    if c = '/' then [] :: splitSlash rest
    else
      match splitSlash rest with
      | [] => [[c]]
      | s :: ss => (c :: s) :: ss

/-- Model of `workspace.replace(/\/+$/, '')` in src/sandbox.ts line 29: drop
every trailing slash. -/
def rstripSlash (l : Str) : Str := (l.reverse.dropWhile (fun c => c == '/')).reverse

/-- The alphabet produced by `crypto.randomUUID()`: lowercase hex digits and
dashes (src/sandbox.ts line 27). -/
def validUUID (u : Str) : Bool :=
  u.all (fun c => c.isDigit || (decide ('a' ≤ c) && decide (c ≤ 'f')) || c == '-')

/-- The workspace-id middleware test of src/main.ts line 58: a workspace name
is rejected when it is empty or contains two adjacent dots, a forward slash or
a backslash. -/
def rejectWorkspaceName (name : Str) : Bool :=
  name.isEmpty || hasSub ['.', '.'] name || hasSub ['/'] name || hasSub ['\\'] name

/-- `c.set('workspace', ...)` of src/main.ts line 63: the workspace directory
path is the literal "./" followed by the workspace name. -/
def wsPathOf (name : Str) : Str := '.' :: '/' :: name

/-- The download-endpoint filename test of src/main.ts line 221. -/
def validDownloadFilename (f : Str) : Bool :=
  !(hasSub ['.', '.'] f || hasSub ['/'] f || hasSub ['\\'] f)

/-- The file-CRUD path of src/main.ts line 122:
`workspacePath + "/" + filename.replace(dotdot, "")`. -/
def filePathOf (ws f : Str) : Str := ws ++ '/' :: stripDotDot f

/-- The download path of src/main.ts line 225: `workspacePath + "/" + filename`. -/
def downloadPathOf (ws f : Str) : Str := ws ++ '/' :: f

/-- Literal prefix of the temporary script name of src/sandbox.ts line 28. -/
def sandboxPre : Str := "sandbox_".data

/-- Literal extension of the temporary script name of src/sandbox.ts line 28. -/
def tsExt : Str := ".ts".data

/-- The temporary script filename of src/sandbox.ts line 28. -/
def scriptNameOf (uuid : Str) : Str := sandboxPre ++ uuid ++ tsExt

/-- The temporary script path of src/sandbox.ts line 29. -/
def scriptPathOf (workspace uuid : Str) : Str :=
  rstripSlash workspace ++ '/' :: scriptNameOf uuid

/-- Syntactic confinement of a path to a workspace directory: the workspace
directory followed by a slash is a literal prefix of the path, and no path
segment equals "..". -/
def confinedIn (ws p : Str) : Bool :=
  (ws ++ ['/']).isPrefixOf p && !(decide (['.', '.'] ∈ splitSlash p))

/-- Filesystem state: existing directories and an association list from file
paths to file contents. -/
structure FsState where
  dirs : List Str
  files : List (Str × Str)
deriving DecidableEq

/-- First-match lookup in the file association list. -/
def lookupFile : List (Str × Str) → Str → Option Str
  | [], _ => none
  | (q, v) :: t, p => if q = p then some v else lookupFile t p

/-- Remove every entry stored under a path. -/
def removeFile : List (Str × Str) → Str → List (Str × Str)
  | [], _ => []
  | (q, v) :: t, p => if q = p then removeFile t p else (q, v) :: removeFile t p

/-- Create or overwrite the file stored under a path. -/
def writeFile (fs : List (Str × Str)) (p v : Str) : List (Str × Str) :=
  (p, v) :: removeFile fs p

/-- One filesystem call performed by the program, with the path it used. -/
inductive FsOp
  | statOp (p : Str)
  | readOp (p : Str)
  | writeOp (p : Str)
  | removeOp (p : Str)
  | readDirOp (p : Str)
  | mkdirOp (p : Str)
  | openOp (p : Str)
  | spawnOp (script : Str) (args : List Str)
deriving DecidableEq

/-- The options record of `run_sandbox` (src/sandbox.ts lines 1-6). -/
structure RunSandboxOptions where
  code : Str
  workspace : Str
  timeout : Int
  memoryLimit : Int
deriving DecidableEq

/-- The result record of `run_sandbox` (src/sandbox.ts lines 8-14). -/
structure SandboxResult where
  success : Bool
  stdout : Str
  stderr : Str
  timedOut : Bool
  error : Option Str
deriving DecidableEq

/-- What `command.output()` returned when it did not throw. -/
structure CmdOutput where
  success : Bool
  stdout : Str
  stderr : Str
deriving DecidableEq

/-- The three ways the awaited subprocess can end, as distinguished by
src/sandbox.ts lines 57-100: `output()` returns (with the abort signal either
fired or not), `output()` throws an AbortError, or it throws some other
launch-level error whose stringification is `msg`. -/
inductive ProcOutcome
  | completed (o : CmdOutput) (aborted : Bool)
  | abortError
  | launchError (msg : Str)
deriving DecidableEq

/-- Environment of one execution: the random UUID, the subprocess outcome and
the effect of the executed script on the workspace files. -/
structure ExecEnv where
  uuid : Str
  outcome : ProcOutcome
  runEffect : List (Str × Str) → List (Str × Str)

/-- The fixed stderr message of src/sandbox.ts lines 67 and 88. -/
def timeoutMsg : Str := "Execution timed out".data

/-- The fixed error field of src/sandbox.ts lines 69 and 90. -/
def timeoutErr : Str := "Timeout".data

/-- Outcome classification of src/sandbox.ts lines 63-100. -/
def classify : ProcOutcome → SandboxResult
  | .completed o ab =>
      if ab then ⟨false, o.stdout, timeoutMsg, true, some timeoutErr⟩
      else ⟨o.success, o.stdout, o.stderr, false, none⟩
  | .abortError => ⟨false, [], timeoutMsg, true, some timeoutErr⟩
  | .launchError m => ⟨false, [], m, false, some m⟩

def runArg : Str := "run".data

def noRemoteArg : Str := "--no-remote".data

def noNpmArg : Str := "--no-npm".data

def allowReadPre : Str := "--allow-read=".data

def allowWritePre : Str := "--allow-write=".data

def v8Pre : Str := "--v8-flags=--max-old-space-size=".data

/-- The memory-ceiling flag of src/sandbox.ts line 49. -/
def memFlag (m : Int) : Str := v8Pre ++ (toString m).data

/-- The argument list of src/sandbox.ts lines 43-51, including the
`.filter(Boolean)` removal of the empty string that stands in for the memory
flag when `memoryLimit` is falsy. -/
def sandboxArgs (workspace : Str) (memoryLimit : Int) (scriptPath : Str) : List Str :=
  ([runArg, noRemoteArg, noNpmArg,
    allowReadPre ++ workspace, allowWritePre ++ workspace,
    if memoryLimit = 0 then [] else memFlag memoryLimit,
    scriptPath]).filter (fun s => !s.isEmpty)

/-- `run_sandbox` of src/sandbox.ts lines 16-109: ensure the workspace
directory, write the temporary script, spawn the subprocess, classify its
outcome, and in the `finally` block remove the temporary script, ignoring
removal errors.  Returns the result, the successor state and the trace of
filesystem calls. -/
def run_sandbox (opts : RunSandboxOptions) (env : ExecEnv) (st : FsState) :
    SandboxResult × FsState × List FsOp :=
  let ws := opts.workspace
  let st1 : FsState := if ws ∈ st.dirs then st else ⟨ws :: st.dirs, st.files⟩
  let ensureOps : List FsOp :=
    if ws ∈ st.dirs then [.statOp ws] else [.statOp ws, .mkdirOp ws]
  let sp := scriptPathOf ws env.uuid
  let files2 := writeFile st1.files sp opts.code
  let args := sandboxArgs ws opts.memoryLimit sp
  let files3 :=
    match env.outcome with
    | .launchError _ => files2
    | _ => env.runEffect files2
  (classify env.outcome, ⟨st1.dirs, removeFile files3 sp⟩,
    ensureOps ++ [.writeOp sp, .spawnOp sp args, .removeOp sp])

/-- A JSON value that may sit in the `code` field of an execute request. -/
inductive JsonVal
  | str (s : Str)
  | num (n : Int)
  | boolVal (b : Bool)
  | null
deriving DecidableEq

/-- Body of an execute request; absent fields are `none`. -/
structure ExecBody where
  code : Option JsonVal
  timeout : Option Int
  memoryLimit : Option Int
deriving DecidableEq

/-- The `code` check of src/main.ts line 76, `!code || typeof code !== 'string'`:
only a nonempty string passes; the accepted script text is returned. -/
def isValidCode : Option JsonVal → Option Str
  | some (JsonVal.str s) => if s.isEmpty then none else some s
  | _ => none

/-- The five recognised `action` strings of the files endpoint plus any other
nonempty string (which reaches the `default` branch). -/
inductive FAction
  | listA | readA | createA | updateA | deleteA | otherA
deriving DecidableEq

/-- Body of a files request; a `none` action or filename stands for a field
that is absent or the empty string (both falsy in JavaScript). -/
structure FilesBody where
  action : Option FAction
  filename : Option Str
  content : Option Str
deriving DecidableEq

/-- The `filename ? ... : null` test of src/main.ts line 122: an absent or
empty filename yields no path. -/
def effFilename (body : FilesBody) : Option Str :=
  match body.filename with
  | some f => if f.isEmpty then none else some f
  | none => none

/-- The HTTP responses the four endpoints can produce. -/
inductive Resp
  | invalidWorkspace
  | codeRequired
  | timeoutRange
  | memoryRange
  | execOk (r : SandboxResult)
  | actionRequired
  | workspaceMissing
  | filenameRequired
  | listOk (entries : List Str)
  | readOk (content : Str)
  | readError
  | createOk
  | updateOk
  | updateNotFound
  | deleteOk
  | deleteNotFound
  | invalidAction
  | invalidFilename
  | downloadNotFound
  | downloadOk (content : Str)
  | createdWs
  | wsConflict
deriving DecidableEq

/-- The HTTP status code of each response, as set in src/main.ts. -/
def Resp.status : Resp → Nat
  | .invalidWorkspace => 400
  | .codeRequired => 400
  | .timeoutRange => 400
  | .memoryRange => 400
  | .execOk _ => 200
  | .actionRequired => 400
  | .workspaceMissing => 404
  | .filenameRequired => 400
  | .listOk _ => 200
  | .readOk _ => 200
  | .readError => 404
  | .createOk => 200
  | .updateOk => 200
  | .updateNotFound => 404
  | .deleteOk => 200
  | .deleteNotFound => 404
  | .invalidAction => 400
  | .invalidFilename => 400
  | .downloadNotFound => 404
  | .downloadOk _ => 200
  | .createdWs => 200
  | .wsConflict => 409

/-- The execute endpoint of src/main.ts lines 68-101: validate `code`,
`timeout` and `memoryLimit` (with destructuring defaults 5000 and 50), then
call `run_sandbox`. -/
def executeHandler (ws : Str) (body : ExecBody) (env : ExecEnv) (st : FsState) :
    Resp × FsState × List FsOp :=
  let timeout := body.timeout.getD 5000
  let memoryLimit := body.memoryLimit.getD 50
  match isValidCode body.code with
  | none => (.codeRequired, st, [])
  | some s =>
      if timeout < 100 || 30000 < timeout then (.timeoutRange, st, [])
      else if memoryLimit < 10 || 500 < memoryLimit then (.memoryRange, st, [])
      else
        let out := run_sandbox ⟨s, ws, timeout, memoryLimit⟩ env st
        (.execOk out.1, out.2.1, out.2.2)

/-- The files endpoint of src/main.ts lines 104-208: require an action, stat
the workspace directory, build the `..`-stripped file path, and dispatch on
the action. -/
def filesHandler (ws : Str) (body : FilesBody) (st : FsState) :
    Resp × FsState × List FsOp :=
  match body.action with
  | none => (.actionRequired, st, [])
  | some act =>
    if ws ∈ st.dirs then
      match act with
      | .listA =>
          (.listOk ((st.files.filter (fun e => (ws ++ ['/']).isPrefixOf e.1)).map
            (fun e => e.1)), st, [.statOp ws, .readDirOp ws])
      | .readA =>
          match effFilename body with
          | none => (.filenameRequired, st, [.statOp ws])
          | some f =>
            let p := filePathOf ws f
            match lookupFile st.files p with
            | some content => (.readOk content, st, [.statOp ws, .readOp p])
            | none => (.readError, st, [.statOp ws, .readOp p])
      | .createA =>
          match effFilename body, body.content with
          | some f, some content =>
              let p := filePathOf ws f
              (.createOk, ⟨st.dirs, writeFile st.files p content⟩,
                [.statOp ws, .writeOp p])
          | _, _ => (.filenameRequired, st, [.statOp ws])
      | .updateA =>
          match effFilename body, body.content with
          | some f, some content =>
              let p := filePathOf ws f
              match lookupFile st.files p with
              | some _ => (.updateOk, ⟨st.dirs, writeFile st.files p content⟩,
                  [.statOp ws, .statOp p, .writeOp p])
              | none => (.updateNotFound, st, [.statOp ws, .statOp p])
          | _, _ => (.filenameRequired, st, [.statOp ws])
      | .deleteA =>
          match effFilename body with
          | none => (.filenameRequired, st, [.statOp ws])
          | some f =>
            let p := filePathOf ws f
            match lookupFile st.files p with
            | some _ => (.deleteOk, ⟨st.dirs, removeFile st.files p⟩,
                [.statOp ws, .removeOp p])
            | none => (.deleteNotFound, st, [.statOp ws, .removeOp p])
      | .otherA => (.invalidAction, st, [.statOp ws])
    else (.workspaceMissing, st, [.statOp ws])

/-- The download endpoint of src/main.ts lines 211-273: require a nonempty
filename, reject traversal characters, then stat and open the file. -/
def downloadHandler (ws : Str) (filename : Option Str) (st : FsState) :
    Resp × FsState × List FsOp :=
  match filename with
  | none => (.filenameRequired, st, [])
  | some f =>
    if f.isEmpty then (.filenameRequired, st, [])
    else if !(validDownloadFilename f) then (.invalidFilename, st, [])
    else
      let p := downloadPathOf ws f
      match lookupFile st.files p with
      | none => (.downloadNotFound, st, [.statOp p])
      | some c => (.downloadOk c, st, [.statOp p, .openOp p])

/-- The create-workspace endpoint of src/main.ts lines 276-296. -/
def createWsHandler (ws : Str) (st : FsState) : Resp × FsState × List FsOp :=
  if ws ∈ st.dirs then (.wsConflict, st, [.statOp ws])
  else (.createdWs, ⟨ws :: st.dirs, st.files⟩, [.statOp ws, .mkdirOp ws])

/-- One request to an endpoint under `/api/{workspace}/...`. -/
inductive Request
  | execute (body : ExecBody)
  | files (body : FilesBody)
  | download (filename : Option Str)
  | createWs

/-- The routed request pipeline of src/main.ts: the workspace-id middleware of
lines 54-65 runs first; on acceptance the workspace path is "./" + name and
the request is dispatched to its endpoint handler. -/
def handleRequest (name : Str) (req : Request) (env : ExecEnv) (st : FsState) :
    Resp × FsState × List FsOp :=
  if rejectWorkspaceName name then (.invalidWorkspace, st, [])
  else
    let ws := wsPathOf name
    match req with
    | .execute body => executeHandler ws body env st
    | .files body => filesHandler ws body st
    | .download f => downloadHandler ws f st
    | .createWs => createWsHandler ws st

/-- `Bool` classification of the two timed-out subprocess outcomes. -/
def timedOutProc : ProcOutcome → Bool
  | .completed _ ab => ab
  | .abortError => true
  | .launchError _ => false

/-- The path a filesystem operation used. -/
def opPath : FsOp → Str
  | .statOp p => p
  | .readOp p => p
  | .writeOp p => p
  | .removeOp p => p
  | .readDirOp p => p
  | .mkdirOp p => p
  | .openOp p => p
  | .spawnOp p _ => p

def allowPre : Str := "--allow-".data

def allowNet : Str := "--allow-net".data

def allowEnv : Str := "--allow-env".data

def allowRun : Str := "--allow-run".data

/-- A sample workspace name. -/
def nameEx : Str := ['w']

/-- A sample UUID as produced by crypto.randomUUID. -/
def uuidEx : Str := "123e4567-e89b-12d3-a456-426614174000".data

/-- A sample benign download filename. -/
def fnameEx : Str := "data.txt".data

/-- A sample malicious filename. -/
def evilEx : Str := "../../etc/passwd".data

/-- A sample filename containing a path separator. -/
def slashName : Str := "a/b".data

/-- The two-dot string. -/
def ddName : Str := ['.', '.']

def goodCode : Str := ['p']

def cfgName : Str := "cfg".data

def contentNew : Str := ['y']

def spawnFailMsg : Str := "spawn failed".data

/-- A sample environment whose subprocess outcome is an abort error. -/
def envEx : ExecEnv := ⟨uuidEx, ProcOutcome.abortError, id⟩

/-- A sample environment whose subprocess fails to launch. -/
def envLaunchFail : ExecEnv := ⟨uuidEx, ProcOutcome.launchError spawnFailMsg, id⟩

/-- The empty filesystem. -/
def stEmpty : FsState := ⟨[], []⟩

/-- A state containing workspace "./w" with one file stored under a
slash-containing name. -/
def stSlash : FsState := ⟨[wsPathOf nameEx], [(filePathOf (wsPathOf nameEx) slashName, ['x'])]⟩

/-- A state containing only the empty workspace "./w". -/
def stWs : FsState := ⟨[wsPathOf nameEx], []⟩

/-- A files body asking to read a slash-containing filename. -/
def bodyReadSlash : FilesBody := ⟨some FAction.readA, some slashName, none⟩

/-- A files body asking for a listing. -/
def bodyListEx : FilesBody := ⟨some FAction.listA, none, none⟩

/-- An execute body with valid code and no of the optional fields. -/
def goodBody : ExecBody := ⟨some (JsonVal.str goodCode), none, none⟩

/-- An execute body whose code is the empty string. -/
def emptyCodeBody : ExecBody := ⟨some (JsonVal.str []), none, none⟩

/-- Sample sandbox options. -/
def optsEx : RunSandboxOptions := ⟨goodCode, wsPathOf nameEx, 5000, 50⟩

theorem hasSub_of_prefix (sub l : Str) (h : sub <+: l) : hasSub sub l = true := by
  cases l with
  | nil =>
    have : sub = [] := List.prefix_nil.mp h
    subst this; rfl
  | cons c t =>
    have hp : sub.isPrefixOf (c :: t) = true := List.isPrefixOf_iff_prefix.mpr h
    simp [hasSub, hp]

theorem hasSub_of_substr (sub l : Str) (h : sub <:+: l) : hasSub sub l = true := by
  obtain ⟨s, t, hst⟩ := h
  induction s generalizing l with
  | nil => exact hasSub_of_prefix sub l ⟨t, by simpa using hst⟩
  | cons x s ih =>
    cases l with
    | nil => simp at hst
    | cons c t2 =>
      have h2 : s ++ sub ++ t = t2 := by
        simp only [List.cons_append, List.cons.injEq] at hst
        exact hst.2
      simp [hasSub, ih t2 h2]

theorem not_mem_of_hasSub_single (c : Char) (l : Str) (h : hasSub [c] l = false) :
    c ∉ l := by
  intro hm
  obtain ⟨s, t, hst⟩ := List.append_of_mem hm
  have hi : [c] <:+: l := ⟨s, t, by simp [hst]⟩
  rw [hasSub_of_substr _ _ hi] at h
  cases h

theorem infix_of_hasDD (l : Str) (h : hasDD l = true) : ['.', '.'] <:+: l := by
  induction l with
  | nil => simp [hasDD] at h
  | cons a t ih =>
    cases t with
    | nil => simp [hasDD] at h
    | cons b t2 =>
      simp only [hasDD, Bool.or_eq_true, Bool.and_eq_true, beq_iff_eq] at h
      rcases h with ⟨h1, h2⟩ | h3
      · subst h1; subst h2; exact ⟨[], t2, rfl⟩
      · exact List.infix_cons (ih h3)

theorem hasDD_of_substr (l : Str) (h : ['.', '.'] <:+: l) : hasDD l = true := by
  obtain ⟨s, t, hst⟩ := h
  induction s generalizing l with
  | nil =>
    have : l = '.' :: '.' :: t := by simpa using hst.symm
    subst this
    simp [hasDD]
  | cons x s ih =>
    cases l with
    | nil => simp at hst
    | cons c t2 =>
      have h2 : s ++ ['.', '.'] ++ t = t2 := by
        simp only [List.cons_append, List.cons.injEq] at hst
        exact hst.2
      have ht2 : hasDD t2 = true := ih t2 h2
      cases t2 with
      | nil => simp [hasDD] at ht2
      | cons d t3 => simp [hasDD, ht2]

theorem hasDD_false_of_hasSub (l : Str) (h : hasSub ['.', '.'] l = false) :
    hasDD l = false := by
  cases hd : hasDD l with
  | false => rfl
  | true =>
    rw [hasSub_of_substr _ _ (infix_of_hasDD l hd)] at h
    cases h

theorem hasDD_false_of_not_mem (l : Str) (h : '.' ∉ l) : hasDD l = false := by
  cases hd : hasDD l with
  | false => rfl
  | true =>
    have hi := infix_of_hasDD l hd
    exact absurd (hi.sublist.subset (by simp)) h

theorem hasDD_append_false (a b : Str) (ha : hasDD a = false) (hb : hasDD b = false)
    (hj : a.getLast? ≠ some '.' ∨ b.head? ≠ some '.') : hasDD (a ++ b) = false := by
  revert ha hj
  induction a with
  | nil => intro _ _; simpa using hb
  | cons x t ih =>
    intro ha hj
    cases t with
    | nil =>
      cases b with
      | nil => simpa using ha
      | cons y u =>
        have hxy : ¬(x = '.' ∧ y = '.') := by
          rintro ⟨rfl, rfl⟩
          rcases hj with hx | hy
          · simp at hx
          · simp at hy
        have hbu : hasDD (y :: u) = false := hb
        simp only [List.cons_append, List.nil_append]
        simp [hasDD, hbu]
        exact fun h1 h2 => hxy ⟨h1, h2⟩
    | cons z t2 =>
      simp only [hasDD, Bool.or_eq_false_iff, Bool.and_eq_false_iff] at ha
      have hj2 : (z :: t2).getLast? ≠ some '.' ∨ b.head? ≠ some '.' := by
        rcases hj with hx | hy
        · left; rw [List.getLast?_cons_cons] at hx; exact hx
        · right; exact hy
      have htail : hasDD ((z :: t2) ++ b) = false := ih ha.2 hj2
      simp only [List.cons_append] at htail ⊢
      simp only [hasDD, Bool.or_eq_false_iff, Bool.and_eq_false_iff]
      refine ⟨?_, htail⟩
      rcases ha.1 with h1 | h1
      · left; exact h1
      · right; exact h1

theorem stripDotDot_head_cons (b : Char) (t : Str) (hb : b ≠ '.') :
    (stripDotDot (b :: t)).head? = some b := by
  cases t with
  | nil => rfl
  | cons c u =>
    have hcond : ¬(b = '.' ∧ c = '.') := by rintro ⟨h1, _⟩; exact hb h1
    simp [stripDotDot, hcond]

theorem hasDD_stripDotDot (l : Str) : hasDD (stripDotDot l) = false := by
  induction l using stripDotDot.induct with
  | case1 => rfl
  | case2 c => rfl
  | case3 a b t h ih =>
    simpa [stripDotDot, h] using ih
  | case4 a b t h ih =>
    rw [stripDotDot, if_neg h]
    cases hX : stripDotDot (b :: t) with
    | nil => rfl
    | cons x xt =>
      rw [hX] at ih
      have hax : ¬(a = '.' ∧ x = '.') := by
        rintro ⟨rfl, rfl⟩
        have hbne : b ≠ '.' := fun hB => h ⟨rfl, hB⟩
        have hhead := stripDotDot_head_cons b t hbne
        rw [hX] at hhead
        simp at hhead
        exact hbne hhead.symm
      simp [hasDD, ih]
      exact fun h1 h2 => hax ⟨h1, h2⟩

theorem splitSlash_head_prefix (l : Str) :
    ∀ s ss, splitSlash l = s :: ss → s <+: l := by
  induction l with
  | nil =>
    intro s ss h
    simp only [splitSlash, List.cons.injEq] at h
    rw [← h.1]
  | cons c rest ih =>
    intro s ss h
    by_cases hc : c = '/'
    · rw [splitSlash, if_pos hc] at h
      have : s = [] := (List.cons.injEq _ _ _ _ ▸ h).1.symm
      subst this
      exact List.nil_prefix
    · cases hr : splitSlash rest with
      | nil =>
        rw [splitSlash, if_neg hc, hr] at h
        have hs : s = [c] := (List.cons.injEq _ _ _ _ ▸ h).1.symm
        subst hs
        exact ⟨rest, rfl⟩
      | cons s0 ss0 =>
        rw [splitSlash, if_neg hc, hr] at h
        have hs : s = c :: s0 := (List.cons.injEq _ _ _ _ ▸ h).1.symm
        subst hs
        obtain ⟨t, ht⟩ := ih s0 ss0 hr
        exact ⟨t, by simp [ht]⟩

theorem mem_splitSlash_infix (l : Str) : ∀ x ∈ splitSlash l, x <:+: l := by
  induction l with
  | nil =>
    intro x hx
    simp only [splitSlash, List.mem_singleton] at hx
    subst hx
    exact List.nil_infix
  | cons c rest ih =>
    intro x hx
    by_cases hc : c = '/'
    · rw [splitSlash, if_pos hc] at hx
      rcases List.mem_cons.mp hx with h1 | h2
      · subst h1; exact List.nil_infix
      · exact List.infix_cons (ih x h2)
    · cases hr : splitSlash rest with
      | nil =>
        rw [splitSlash, if_neg hc, hr] at hx
        simp only [List.mem_singleton] at hx
        subst hx
        exact List.IsPrefix.isInfix ⟨rest, rfl⟩
      | cons s0 ss0 =>
        rw [splitSlash, if_neg hc, hr] at hx
        rcases List.mem_cons.mp hx with h1 | h2
        · subst h1
          obtain ⟨t, ht⟩ := splitSlash_head_prefix rest s0 ss0 hr
          exact List.IsPrefix.isInfix ⟨t, by simp [ht]⟩
        · have hx2 : x ∈ splitSlash rest := by
            rw [hr]; exact List.mem_cons_of_mem _ h2
          exact List.infix_cons (ih x hx2)

theorem mem_of_getLast (l : Str) (c : Char) (h : l.getLast? = some c) : c ∈ l := by
  have hr : l.reverse.head? = some c := by rw [List.head?_reverse]; exact h
  have hm : c ∈ l.reverse := by
    cases hl : l.reverse with
    | nil => rw [hl] at hr; cases hr
    | cons a t =>
      rw [hl] at hr
      simp only [List.head?_cons, Option.some.injEq] at hr
      exact hr ▸ List.mem_cons_self a t
  exact List.mem_reverse.mp hm

theorem rstripSlash_eq_self (l : Str) (h : ∀ c, l.getLast? = some c → c ≠ '/') :
    rstripSlash l = l := by
  rw [rstripSlash]
  cases hrev : l.reverse with
  | nil => simp [List.reverse_eq_nil_iff.mp hrev]
  | cons a t =>
    have ha : l.getLast? = some a := by rw [← List.head?_reverse, hrev]; rfl
    have hane : (a == '/') = false := beq_eq_false_iff_ne.mpr (h a ha)
    simp only [List.dropWhile_cons, hane, Bool.false_eq_true, if_false]
    rw [← hrev, List.reverse_reverse]

theorem lookupFile_removeFile (fs : List (Str × Str)) (p : Str) :
    lookupFile (removeFile fs p) p = none := by
  induction fs with
  | nil => rfl
  | cons e t ih =>
    obtain ⟨q, v⟩ := e
    by_cases h : q = p
    · simp [removeFile, h, ih]
    · simp [removeFile, lookupFile, h, ih]

theorem lookupFile_writeFile (fs : List (Str × Str)) (p v : Str) :
    lookupFile (writeFile fs p v) p = some v := by
  simp [writeFile, lookupFile]

theorem validUUID_not_mem_dot (u : Str) (h : validUUID u = true) : '.' ∉ u := by
  intro hm
  have := List.all_eq_true.mp h _ hm
  exact absurd this (by decide)

theorem rejectFacts (name : Str) (h : rejectWorkspaceName name = false) :
    name ≠ [] ∧ hasSub ['.', '.'] name = false ∧ hasSub ['/'] name = false ∧
      hasSub ['\\'] name = false := by
  rw [rejectWorkspaceName] at h
  simp only [Bool.or_eq_false_iff] at h
  obtain ⟨⟨⟨h1, h2⟩, h3⟩, h4⟩ := h
  refine ⟨?_, h2, h3, h4⟩
  intro he
  subst he
  simp at h1

theorem hasDD_wsPath (name : Str) (h : hasDD name = false) :
    hasDD (wsPathOf name) = false := by
  have heq : wsPathOf name = ['.', '/'] ++ name := rfl
  rw [heq]
  exact hasDD_append_false ['.', '/'] name (by decide) h (Or.inl (by decide))

theorem confined_build (name rest : Str) (hname : rejectWorkspaceName name = false)
    (hrest : hasDD rest = false) :
    confinedIn (wsPathOf name) (wsPathOf name ++ '/' :: rest) = true := by
  obtain ⟨_, hdd, _, _⟩ := rejectFacts name hname
  have h1 : hasDD (wsPathOf name) = false := hasDD_wsPath name (hasDD_false_of_hasSub _ hdd)
  have h2 : hasDD ('/' :: rest) = false := by
    have heq : ('/' :: rest) = ['/'] ++ rest := rfl
    rw [heq]
    exact hasDD_append_false ['/'] rest (by decide) hrest (Or.inl (by decide))
  have hfull : hasDD (wsPathOf name ++ '/' :: rest) = false :=
    hasDD_append_false _ _ h1 h2 (Or.inr (by intro hcon; simp at hcon))
  have hseg : ¬ (['.', '.'] ∈ splitSlash (wsPathOf name ++ '/' :: rest)) := by
    intro hm
    have hi := mem_splitSlash_infix _ _ hm
    rw [hasDD_of_substr _ hi] at hfull
    cases hfull
  have hpre : (wsPathOf name ++ ['/']).isPrefixOf (wsPathOf name ++ '/' :: rest) = true := by
    have : (wsPathOf name ++ ['/']) <+: (wsPathOf name ++ '/' :: rest) := ⟨rest, by simp⟩
    exact List.isPrefixOf_iff_prefix.mpr this
  simp [confinedIn, hpre, hseg]

theorem rstrip_wsPath (name : Str) (hname : rejectWorkspaceName name = false) :
    rstripSlash (wsPathOf name) = wsPathOf name := by
  obtain ⟨hne, _, hslash, _⟩ := rejectFacts name hname
  apply rstripSlash_eq_self
  intro c hc hceq
  subst hceq
  cases hn : name with
  | nil => exact hne hn
  | cons n0 nt =>
    rw [hn] at hc
    have hlast : (n0 :: nt).getLast? = some '/' := by
      rw [wsPathOf] at hc
      rw [List.getLast?_cons_cons, List.getLast?_cons_cons] at hc
      exact hc
    have := mem_of_getLast _ _ hlast
    rw [← hn] at this
    exact not_mem_of_hasSub_single '/' name hslash this

theorem hasDD_scriptName (uuid : Str) (h : validUUID uuid = true) :
    hasDD (scriptNameOf uuid) = false := by
  have hu : '.' ∉ uuid := validUUID_not_mem_dot uuid h
  have h1 : hasDD uuid = false := hasDD_false_of_not_mem uuid hu
  have h2 : hasDD (uuid ++ tsExt) = false := by
    refine hasDD_append_false uuid tsExt h1 (by decide) (Or.inl ?_)
    intro hlast
    exact hu (mem_of_getLast uuid '.' hlast)
  have heq : scriptNameOf uuid = sandboxPre ++ (uuid ++ tsExt) := by
    simp [scriptNameOf, List.append_assoc]
  rw [heq]
  exact hasDD_append_false sandboxPre (uuid ++ tsExt) (by decide) h2 (Or.inl (by decide))

/-- C3: for every HTTP request to any endpoint under /api/{workspace}/..., if
the workspace identifier is empty or contains "..", "/" or "\", the request is
rejected with a 400 validation error, the filesystem state is unchanged and no
filesystem operation is performed. -/
theorem C3_workspace_validator_rejects (name : Str) (req : Request) (env : ExecEnv)
    (st : FsState)
    (h : name = [] ∨ hasSub ['.', '.'] name = true ∨ hasSub ['/'] name = true ∨
      hasSub ['\\'] name = true) :
    handleRequest name req env st = (Resp.invalidWorkspace, st, []) ∧
      Resp.status Resp.invalidWorkspace = 400 := by
  have hrej : rejectWorkspaceName name = true := by
    rw [rejectWorkspaceName]
    rcases h with h | h | h | h
    · subst h; rfl
    · simp [h]
    · simp [h]
    · simp [h]
  exact ⟨by simp [handleRequest, hrej], rfl⟩

/-- Witness for C3 at the concrete identifier "a..b". -/
theorem C3_workspace_validator_rejects_witness :
    handleRequest (ddName ++ nameEx) Request.createWs envEx stEmpty =
      (Resp.invalidWorkspace, stEmpty, []) ∧
      Resp.status Resp.invalidWorkspace = 400 :=
  C3_workspace_validator_rejects (ddName ++ nameEx) Request.createWs envEx stEmpty
    (Or.inr (Or.inl (by decide)))

/-- C2: for every workspace name that passes the validator, every filename (for
the file-CRUD path), every UUID and every filename accepted by the download
endpoint, each constructed filesystem path — the CRUD path, the temporary
script path of run_sandbox and the download path — has the workspace directory
followed by a slash as a prefix and contains no ".." path segment. -/
theorem C2_paths_confined (name f g uuid : Str)
    (hname : rejectWorkspaceName name = false)
    (huuid : validUUID uuid = true)
    (hg : validDownloadFilename g = true) :
    confinedIn (wsPathOf name) (filePathOf (wsPathOf name) f) = true ∧
    confinedIn (wsPathOf name) (scriptPathOf (wsPathOf name) uuid) = true ∧
    confinedIn (wsPathOf name) (downloadPathOf (wsPathOf name) g) = true := by
  refine ⟨?_, ?_, ?_⟩
  · exact confined_build name (stripDotDot f) hname (hasDD_stripDotDot f)
  · have hs : scriptPathOf (wsPathOf name) uuid =
        wsPathOf name ++ '/' :: scriptNameOf uuid := by
      rw [scriptPathOf, rstrip_wsPath name hname]
    rw [hs]
    exact confined_build name (scriptNameOf uuid) hname (hasDD_scriptName uuid huuid)
  · have hgdd : hasDD g = false := by
      rw [validDownloadFilename] at hg
      simp only [Bool.not_eq_true', Bool.or_eq_false_iff] at hg
      exact hasDD_false_of_hasSub g hg.1.1
    exact confined_build name g hname hgdd

/-- Witness for C2 at a concrete workspace, a concrete malicious filename, a
concrete benign download filename and a concrete UUID. -/
theorem C2_paths_confined_witness :
    rejectWorkspaceName nameEx = false ∧ validUUID uuidEx = true ∧
    validDownloadFilename fnameEx = true ∧
    (confinedIn (wsPathOf nameEx) (filePathOf (wsPathOf nameEx) evilEx) = true ∧
     confinedIn (wsPathOf nameEx) (scriptPathOf (wsPathOf nameEx) uuidEx) = true ∧
     confinedIn (wsPathOf nameEx) (downloadPathOf (wsPathOf nameEx) fnameEx) = true) :=
  ⟨by decide, by decide, by decide,
    C2_paths_confined nameEx evilEx fnameEx uuidEx (by decide) (by decide) (by decide)⟩

/-- C5: whenever the abort signal fired before the subprocess completed (either
observed through signal.aborted or through a thrown AbortError), run_sandbox
returns success = false, timedOut = true, a populated error field, and a stderr
equal to the fixed timeout message rather than the captured native output. -/
theorem C5_timeout_result (opts : RunSandboxOptions) (env : ExecEnv) (st : FsState)
    (h : timedOutProc env.outcome = true) :
    (run_sandbox opts env st).1.success = false ∧
    (run_sandbox opts env st).1.timedOut = true ∧
    (run_sandbox opts env st).1.error.isSome = true ∧
    (run_sandbox opts env st).1.stderr = timeoutMsg := by
  cases ho : env.outcome with
  | completed o ab =>
    have hab : ab = true := by rw [ho] at h; exact h
    subst hab
    simp [run_sandbox, ho, classify]
  | abortError => simp [run_sandbox, ho, classify]
  | launchError m =>
    rw [ho] at h
    exact absurd h (by simp [timedOutProc])

/-- Witness for C5 at a concrete timed-out execution. -/
theorem C5_timeout_result_witness :
    (run_sandbox optsEx envEx stEmpty).1.success = false ∧
    (run_sandbox optsEx envEx stEmpty).1.timedOut = true ∧
    (run_sandbox optsEx envEx stEmpty).1.error.isSome = true ∧
    (run_sandbox optsEx envEx stEmpty).1.stderr = timeoutMsg :=
  C5_timeout_result optsEx envEx stEmpty (by decide)

/-- C6 counterexample: at a concrete launch-level failure the claim's premises
hold (success = false, timedOut = false, populated error, empty stdout) but the
captured stderr is not empty — it carries the stringified launch error — so the
claim that both output streams are empty is false on the code. -/
theorem C6_launch_error_counterexample :
    (run_sandbox optsEx envLaunchFail stEmpty).1.success = false ∧
    (run_sandbox optsEx envLaunchFail stEmpty).1.timedOut = false ∧
    (run_sandbox optsEx envLaunchFail stEmpty).1.error.isSome = true ∧
    (run_sandbox optsEx envLaunchFail stEmpty).1.stdout = [] ∧
    (run_sandbox optsEx envLaunchFail stEmpty).1.stderr ≠ [] := by
  decide

/-- C6 amended: for every launch-level error, run_sandbox returns
success = false, timedOut = false, the error field set to the stringified
error, an empty stdout, and stderr equal to that same stringified error
(hence not empty whenever the message is not empty). -/
theorem C6_launch_error_result (opts : RunSandboxOptions) (env : ExecEnv) (st : FsState)
    (m : Str) (h : env.outcome = ProcOutcome.launchError m) :
    (run_sandbox opts env st).1.success = false ∧
    (run_sandbox opts env st).1.timedOut = false ∧
    (run_sandbox opts env st).1.error = some m ∧
    (run_sandbox opts env st).1.stdout = [] ∧
    (run_sandbox opts env st).1.stderr = m := by
  simp [run_sandbox, h, classify]

/-- Witness for the amended C6 at a concrete launch failure. -/
theorem C6_launch_error_result_witness :
    (run_sandbox optsEx envLaunchFail stEmpty).1.success = false ∧
    (run_sandbox optsEx envLaunchFail stEmpty).1.timedOut = false ∧
    (run_sandbox optsEx envLaunchFail stEmpty).1.error = some spawnFailMsg ∧
    (run_sandbox optsEx envLaunchFail stEmpty).1.stdout = [] ∧
    (run_sandbox optsEx envLaunchFail stEmpty).1.stderr = spawnFailMsg :=
  C6_launch_error_result optsEx envLaunchFail stEmpty spawnFailMsg rfl

/-- C7: on every exit path of run_sandbox the deletion of the temporary script
file is the last filesystem operation of the call, after the call the script
path is absent from the file store (the modelled removal deletes the entry and
a failed removal can only mean the entry was already gone), and the returned
result is exactly the outcome classification — it never depends on whether the
cleanup succeeded. -/
theorem C7_cleanup (opts : RunSandboxOptions) (env : ExecEnv) (st : FsState) :
    lookupFile (run_sandbox opts env st).2.1.files
      (scriptPathOf opts.workspace env.uuid) = none ∧
    (run_sandbox opts env st).2.2.getLast? =
      some (FsOp.removeOp (scriptPathOf opts.workspace env.uuid)) ∧
    (run_sandbox opts env st).1 = classify env.outcome := by
  refine ⟨lookupFile_removeFile _ _, ?_, rfl⟩
  by_cases hws : opts.workspace ∈ st.dirs
  · simp [run_sandbox, hws, List.getLast?]
  · simp [run_sandbox, hws, List.getLast?]

/-- C4: for every execution request that passed validation (so the memory
bound is in [10, 500]), the argument list of the spawned subprocess is exactly
the fixed list whose only permission flags are read and write access to the
workspace directory, which contains the memory-ceiling flag derived from the
request's memory bound, and which contains no flag granting network access,
environment access or subprocess spawning. -/
theorem C4_spawn_arguments (name uuid : Str) (m : Int)
    (hname : rejectWorkspaceName name = false)
    (hm1 : 10 ≤ m) (hm2 : m ≤ 500) :
    sandboxArgs (wsPathOf name) m (scriptPathOf (wsPathOf name) uuid) =
      [runArg, noRemoteArg, noNpmArg,
       allowReadPre ++ wsPathOf name, allowWritePre ++ wsPathOf name,
       memFlag m, scriptPathOf (wsPathOf name) uuid] ∧
    (∀ a ∈ sandboxArgs (wsPathOf name) m (scriptPathOf (wsPathOf name) uuid),
      allowPre.isPrefixOf a = true →
        a = allowReadPre ++ wsPathOf name ∨ a = allowWritePre ++ wsPathOf name) ∧
    (∀ a ∈ sandboxArgs (wsPathOf name) m (scriptPathOf (wsPathOf name) uuid),
      allowNet.isPrefixOf a = false ∧ allowEnv.isPrefixOf a = false ∧
        allowRun.isPrefixOf a = false) := by
  have hm0 : ¬(m = 0) := by omega
  have hsp : scriptPathOf (wsPathOf name) uuid =
      '.' :: '/' :: (name ++ '/' :: scriptNameOf uuid) := by
    rw [scriptPathOf, rstrip_wsPath name hname]
    rfl
  have heq : sandboxArgs (wsPathOf name) m (scriptPathOf (wsPathOf name) uuid) =
      [runArg, noRemoteArg, noNpmArg,
       allowReadPre ++ wsPathOf name, allowWritePre ++ wsPathOf name,
       memFlag m, scriptPathOf (wsPathOf name) uuid] := by
    rw [sandboxArgs, if_neg hm0]
    apply List.filter_eq_self.mpr
    intro a ha
    simp only [List.mem_cons, List.not_mem_nil, or_false] at ha
    rcases ha with rfl | rfl | rfl | rfl | rfl | rfl | rfl
    · rfl
    · rfl
    · rfl
    · rfl
    · rfl
    · rfl
    · rw [hsp]; rfl
  refine ⟨heq, ?_, ?_⟩
  · intro a ha h
    rw [heq] at ha
    simp only [List.mem_cons, List.not_mem_nil, or_false] at ha
    rcases ha with rfl | rfl | rfl | rfl | rfl | rfl | rfl
    · exact Bool.noConfusion h
    · exact Bool.noConfusion h
    · exact Bool.noConfusion h
    · exact Or.inl rfl
    · exact Or.inr rfl
    · exact Bool.noConfusion h
    · rw [hsp] at h; exact Bool.noConfusion h
  · intro a ha
    rw [heq] at ha
    simp only [List.mem_cons, List.not_mem_nil, or_false] at ha
    rcases ha with rfl | rfl | rfl | rfl | rfl | rfl | rfl
    · exact ⟨rfl, rfl, rfl⟩
    · exact ⟨rfl, rfl, rfl⟩
    · exact ⟨rfl, rfl, rfl⟩
    · exact ⟨rfl, rfl, rfl⟩
    · exact ⟨rfl, rfl, rfl⟩
    · exact ⟨rfl, rfl, rfl⟩
    · rw [hsp]; exact ⟨rfl, rfl, rfl⟩

/-- Witness for C4 at a concrete workspace, UUID and memory bound. -/
theorem C4_spawn_arguments_witness :
    sandboxArgs (wsPathOf nameEx) 50 (scriptPathOf (wsPathOf nameEx) uuidEx) =
      [runArg, noRemoteArg, noNpmArg,
       allowReadPre ++ wsPathOf nameEx, allowWritePre ++ wsPathOf nameEx,
       memFlag 50, scriptPathOf (wsPathOf nameEx) uuidEx] :=
  (C4_spawn_arguments nameEx uuidEx 50 (by decide) (by decide) (by decide)).1

/-- C8: with the workspace present, for action update on an absent target the
request returns the 404 file-not-found error and leaves the state unchanged
(no file is created); for action update on a present target the write succeeds
and the file now holds the new content; for action create the write succeeds
and overwrites regardless of prior existence. -/
theorem C8_update_create (name f c : Str) (env : ExecEnv) (st : FsState)
    (hname : rejectWorkspaceName name = false) (hf : f.isEmpty = false)
    (hws : wsPathOf name ∈ st.dirs) :
    (lookupFile st.files (filePathOf (wsPathOf name) f) = none →
      handleRequest name (Request.files ⟨some FAction.updateA, some f, some c⟩) env st =
        (Resp.updateNotFound, st,
          [FsOp.statOp (wsPathOf name), FsOp.statOp (filePathOf (wsPathOf name) f)]) ∧
      Resp.status Resp.updateNotFound = 404) ∧
    ((lookupFile st.files (filePathOf (wsPathOf name) f)).isSome = true →
      (handleRequest name
          (Request.files ⟨some FAction.updateA, some f, some c⟩) env st).1 =
        Resp.updateOk ∧
      lookupFile
        (handleRequest name
          (Request.files ⟨some FAction.updateA, some f, some c⟩) env st).2.1.files
        (filePathOf (wsPathOf name) f) = some c) ∧
    ((handleRequest name
        (Request.files ⟨some FAction.createA, some f, some c⟩) env st).1 =
      Resp.createOk ∧
      lookupFile
        (handleRequest name
          (Request.files ⟨some FAction.createA, some f, some c⟩) env st).2.1.files
        (filePathOf (wsPathOf name) f) = some c) := by
  refine ⟨?_, ?_, ?_⟩
  · intro hlk
    refine ⟨?_, rfl⟩
    simp [handleRequest, hname, filesHandler, effFilename, hf, hws, hlk]
  · intro hlk
    obtain ⟨old, hold⟩ := Option.isSome_iff_exists.mp hlk
    constructor
    · simp [handleRequest, hname, filesHandler, effFilename, hf, hws, hold]
    · simp [handleRequest, hname, filesHandler, effFilename, hf, hws, hold,
        lookupFile_writeFile]
  · constructor
    · simp [handleRequest, hname, filesHandler, effFilename, hf, hws]
    · simp [handleRequest, hname, filesHandler, effFilename, hf, hws,
        lookupFile_writeFile]

/-- Witness for C8: updating an absent file in an empty workspace 404s without
creating it, and creating the same file succeeds and stores the content. -/
theorem C8_update_create_witness :
    (handleRequest nameEx
        (Request.files ⟨some FAction.updateA, some cfgName, some contentNew⟩) envEx stWs =
      (Resp.updateNotFound, stWs,
        [FsOp.statOp (wsPathOf nameEx), FsOp.statOp (filePathOf (wsPathOf nameEx) cfgName)]) ∧
      Resp.status Resp.updateNotFound = 404) ∧
    ((handleRequest nameEx
        (Request.files ⟨some FAction.createA, some cfgName, some contentNew⟩) envEx stWs).1 =
      Resp.createOk ∧
      lookupFile
        (handleRequest nameEx
          (Request.files ⟨some FAction.createA, some cfgName, some contentNew⟩) envEx stWs).2.1.files
        (filePathOf (wsPathOf nameEx) cfgName) = some contentNew) :=
  ⟨(C8_update_create nameEx cfgName contentNew envEx stWs
      (by decide) (by decide) (by decide)).1 (by decide),
   (C8_update_create nameEx cfgName contentNew envEx stWs
      (by decide) (by decide) (by decide)).2.2⟩

/-- C9 counterexample: the body whose code field is the empty string — a
present, string-valued code with in-range (defaulted) timeout and memory
bounds — is answered with the 400 code-required response, not with the 200
response the claim requires for every request that is neither missing code,
non-string code, nor out-of-range. -/
theorem C9_execute_validation_counterexample :
    emptyCodeBody.code = some (JsonVal.str []) ∧
    (handleRequest nameEx (Request.execute emptyCodeBody) envEx stEmpty).1 =
      Resp.codeRequired ∧
    Resp.status (handleRequest nameEx (Request.execute emptyCodeBody) envEx stEmpty).1 =
      400 := by
  decide

/-- C9 amended: a missing, empty-string or non-string code field, an
out-of-range timeout, or an out-of-range memoryLimit is answered with 400
before any filesystem operation; an absent timeout defaults to 5000 and an
absent memoryLimit to 50; otherwise the endpoint answers 200 with the
run_sandbox result (success, stdout, stderr, timedOut, optional error). -/
theorem C9_execute_validation (name : Str) (body : ExecBody) (env : ExecEnv)
    (st : FsState) (hname : rejectWorkspaceName name = false) :
    (isValidCode body.code = none →
      handleRequest name (Request.execute body) env st = (Resp.codeRequired, st, [])) ∧
    (∀ s, isValidCode body.code = some s →
      (body.timeout.getD 5000 < 100 ∨ 30000 < body.timeout.getD 5000) →
      handleRequest name (Request.execute body) env st = (Resp.timeoutRange, st, [])) ∧
    (∀ s, isValidCode body.code = some s →
      ¬(body.timeout.getD 5000 < 100 ∨ 30000 < body.timeout.getD 5000) →
      (body.memoryLimit.getD 50 < 10 ∨ 500 < body.memoryLimit.getD 50) →
      handleRequest name (Request.execute body) env st = (Resp.memoryRange, st, [])) ∧
    (∀ s, isValidCode body.code = some s →
      ¬(body.timeout.getD 5000 < 100 ∨ 30000 < body.timeout.getD 5000) →
      ¬(body.memoryLimit.getD 50 < 10 ∨ 500 < body.memoryLimit.getD 50) →
      (handleRequest name (Request.execute body) env st).1 =
        Resp.execOk (run_sandbox
          ⟨s, wsPathOf name, body.timeout.getD 5000, body.memoryLimit.getD 50⟩
          env st).1 ∧
      Resp.status (handleRequest name (Request.execute body) env st).1 = 200) ∧
    (body.timeout = none → body.timeout.getD 5000 = 5000) ∧
    (body.memoryLimit = none → body.memoryLimit.getD 50 = 50) := by
  refine ⟨?_, ?_, ?_, ?_, ?_, ?_⟩
  · intro hc
    simp [handleRequest, hname, executeHandler, hc]
  · intro s hc ht
    have hT : (decide (body.timeout.getD 5000 < 100) ||
        decide (30000 < body.timeout.getD 5000)) = true := by
      rcases ht with h | h
      · simp [decide_eq_true h]
      · simp [decide_eq_true h]
    simp [handleRequest, hname, executeHandler, hc, hT]
  · intro s hc ht hm
    rw [not_or] at ht
    have hT : (decide (body.timeout.getD 5000 < 100) ||
        decide (30000 < body.timeout.getD 5000)) = false := by
      simp [decide_eq_false ht.1, decide_eq_false ht.2]
    have hM : (decide (body.memoryLimit.getD 50 < 10) ||
        decide (500 < body.memoryLimit.getD 50)) = true := by
      rcases hm with h | h
      · simp [decide_eq_true h]
      · simp [decide_eq_true h]
    simp [handleRequest, hname, executeHandler, hc, hT, hM]
  · intro s hc ht hm
    rw [not_or] at ht hm
    have hT : (decide (body.timeout.getD 5000 < 100) ||
        decide (30000 < body.timeout.getD 5000)) = false := by
      simp [decide_eq_false ht.1, decide_eq_false ht.2]
    have hM : (decide (body.memoryLimit.getD 50 < 10) ||
        decide (500 < body.memoryLimit.getD 50)) = false := by
      simp [decide_eq_false hm.1, decide_eq_false hm.2]
    constructor
    · simp [handleRequest, hname, executeHandler, hc, hT, hM]
    · simp [handleRequest, hname, executeHandler, hc, hT, hM, Resp.status]
  · intro h; rw [h]; rfl
  · intro h; rw [h]; rfl

/-- Witness for the amended C9: a valid one-character script with defaulted
bounds is answered 200 with the run_sandbox result. -/
theorem C9_execute_validation_witness :
    (handleRequest nameEx (Request.execute goodBody) envEx stEmpty).1 =
      Resp.execOk (run_sandbox ⟨goodCode, wsPathOf nameEx, 5000, 50⟩ envEx stEmpty).1 ∧
    Resp.status (handleRequest nameEx (Request.execute goodBody) envEx stEmpty).1 = 200 :=
  (C9_execute_validation nameEx goodBody envEx stEmpty (by decide)).2.2.2.1
    goodCode (by decide) (by decide) (by decide)

/-- C10: with a validated workspace name whose directory is absent, every
files-endpoint action is answered 404 after only the workspace stat — no
per-file filesystem operation happens and the state is unchanged — while a
valid execute request succeeds with 200 and creates the workspace directory
on demand. -/
theorem C10_workspace_absence (name : Str) (body : FilesBody) (act : FAction)
    (eb : ExecBody) (s : Str) (env : ExecEnv) (st : FsState)
    (hname : rejectWorkspaceName name = false)
    (habs : wsPathOf name ∉ st.dirs) :
    (body.action = some act →
      handleRequest name (Request.files body) env st =
        (Resp.workspaceMissing, st, [FsOp.statOp (wsPathOf name)]) ∧
      Resp.status Resp.workspaceMissing = 404) ∧
    (isValidCode eb.code = some s →
      ¬(eb.timeout.getD 5000 < 100 ∨ 30000 < eb.timeout.getD 5000) →
      ¬(eb.memoryLimit.getD 50 < 10 ∨ 500 < eb.memoryLimit.getD 50) →
      Resp.status (handleRequest name (Request.execute eb) env st).1 = 200 ∧
      wsPathOf name ∈ (handleRequest name (Request.execute eb) env st).2.1.dirs) := by
  constructor
  · intro hact
    refine ⟨?_, rfl⟩
    simp [handleRequest, hname, filesHandler, hact, habs]
  · intro hc ht hm
    rw [not_or] at ht hm
    have hT : (decide (eb.timeout.getD 5000 < 100) ||
        decide (30000 < eb.timeout.getD 5000)) = false := by
      simp [decide_eq_false ht.1, decide_eq_false ht.2]
    have hM : (decide (eb.memoryLimit.getD 50 < 10) ||
        decide (500 < eb.memoryLimit.getD 50)) = false := by
      simp [decide_eq_false hm.1, decide_eq_false hm.2]
    constructor
    · simp [handleRequest, hname, executeHandler, hc, hT, hM, Resp.status]
    · simp [handleRequest, hname, executeHandler, hc, hT, hM, run_sandbox, habs]

/-- Witness for C10: a list request against the absent workspace "./w" 404s
with only the workspace stat, and an execute request against the same absent
workspace answers 200 and creates the directory. -/
theorem C10_workspace_absence_witness :
    (handleRequest nameEx (Request.files bodyListEx) envEx stEmpty =
      (Resp.workspaceMissing, stEmpty, [FsOp.statOp (wsPathOf nameEx)]) ∧
      Resp.status Resp.workspaceMissing = 404) ∧
    (Resp.status (handleRequest nameEx (Request.execute goodBody) envEx stEmpty).1 = 200 ∧
      wsPathOf nameEx ∈ (handleRequest nameEx (Request.execute goodBody) envEx stEmpty).2.1.dirs) :=
  ⟨(C10_workspace_absence nameEx bodyListEx FAction.listA goodBody goodCode envEx stEmpty
      (by decide) (by decide)).1 rfl,
   (C10_workspace_absence nameEx bodyListEx FAction.listA goodBody goodCode envEx stEmpty
      (by decide) (by decide)).2 (by decide) (by decide) (by decide)⟩

/-- C1 counterexample: the filename "a/b" contains a forward slash, yet the
files endpoint does not reject the read request — it performs a filesystem
read on the path derived from that filename and answers 200 when the file
exists — so the claim that such filenames are rejected before any filesystem
call is false for the files endpoint. -/
theorem C1_filename_rejection_counterexample :
    hasSub ['/'] slashName = true ∧
    (handleRequest nameEx (Request.files bodyReadSlash) envEx stSlash).1 =
      Resp.readOk ['x'] ∧
    Resp.status (handleRequest nameEx (Request.files bodyReadSlash) envEx stSlash).1 =
      200 ∧
    (handleRequest nameEx (Request.files bodyReadSlash) envEx stSlash).2.2 =
      [FsOp.statOp (wsPathOf nameEx),
       FsOp.readOp (filePathOf (wsPathOf nameEx) slashName)] := by
  decide

/-- C1 amended: the download endpoint rejects an empty or traversal-containing
filename with 400 before any filesystem call; the files endpoint rejects a
missing or empty filename with 400 for read, create, update and delete before
any filename-derived filesystem call; but for the files endpoint a filename
containing ".." or slashes is not rejected — instead every ".." substring is
stripped and every filesystem call the action performs beyond the workspace
stat uses exactly the path built from the stripped filename. -/
theorem C1_filename_validation_amended (name g f : Str) (body : FilesBody)
    (env : ExecEnv) (st : FsState) (hname : rejectWorkspaceName name = false) :
    (g = [] ∨ validDownloadFilename g = false →
      Resp.status (handleRequest name (Request.download (some g)) env st).1 = 400 ∧
      (handleRequest name (Request.download (some g)) env st).2.2 = []) ∧
    (body.action = some FAction.readA ∨ body.action = some FAction.createA ∨
        body.action = some FAction.updateA ∨ body.action = some FAction.deleteA →
      effFilename body = none → wsPathOf name ∈ st.dirs →
      Resp.status (handleRequest name (Request.files body) env st).1 = 400 ∧
      ∀ op ∈ (handleRequest name (Request.files body) env st).2.2,
        op = FsOp.statOp (wsPathOf name)) ∧
    (body.action = some FAction.readA ∨ body.action = some FAction.createA ∨
        body.action = some FAction.updateA ∨ body.action = some FAction.deleteA →
      effFilename body = some f →
      ∀ op ∈ (handleRequest name (Request.files body) env st).2.2,
        op = FsOp.statOp (wsPathOf name) ∨
        opPath op = filePathOf (wsPathOf name) f) := by
  refine ⟨?_, ?_, ?_⟩
  · rintro (rfl | hvd)
    · simp [handleRequest, hname, downloadHandler, Resp.status]
    · by_cases hge : g.isEmpty
      · simp [handleRequest, hname, downloadHandler, hge, Resp.status]
      · simp [handleRequest, hname, downloadHandler, hge, hvd, Resp.status]
  · intro hact heff hws
    rcases hact with hA | hA | hA | hA
    · simp [handleRequest, hname, filesHandler, hA, hws, heff, Resp.status]
    · simp [handleRequest, hname, filesHandler, hA, hws, heff, Resp.status]
    · simp [handleRequest, hname, filesHandler, hA, hws, heff, Resp.status]
    · simp [handleRequest, hname, filesHandler, hA, hws, heff, Resp.status]
  · intro hact heff
    by_cases hws : wsPathOf name ∈ st.dirs
    · rcases hact with hA | hA | hA | hA
      · cases hlk : lookupFile st.files (filePathOf (wsPathOf name) f) with
        | some c =>
          simp [handleRequest, hname, filesHandler, hA, hws, heff, hlk, opPath]
        | none =>
          simp [handleRequest, hname, filesHandler, hA, hws, heff, hlk, opPath]
      · cases hco : body.content with
        | none => simp [handleRequest, hname, filesHandler, hA, hws, heff, hco, opPath]
        | some c => simp [handleRequest, hname, filesHandler, hA, hws, heff, hco, opPath]
      · cases hco : body.content with
        | none => simp [handleRequest, hname, filesHandler, hA, hws, heff, hco, opPath]
        | some c =>
          cases hlk : lookupFile st.files (filePathOf (wsPathOf name) f) with
          | some o =>
            simp [handleRequest, hname, filesHandler, hA, hws, heff, hco, hlk, opPath]
          | none =>
            simp [handleRequest, hname, filesHandler, hA, hws, heff, hco, hlk, opPath]
      · cases hlk : lookupFile st.files (filePathOf (wsPathOf name) f) with
        | some c =>
          simp [handleRequest, hname, filesHandler, hA, hws, heff, hlk, opPath]
        | none =>
          simp [handleRequest, hname, filesHandler, hA, hws, heff, hlk, opPath]
    · rcases hact with hA | hA | hA | hA
      · simp [handleRequest, hname, filesHandler, hA, hws, heff]
      · simp [handleRequest, hname, filesHandler, hA, hws, heff]
      · simp [handleRequest, hname, filesHandler, hA, hws, heff]
      · simp [handleRequest, hname, filesHandler, hA, hws, heff]

/-- Witness for the amended C1: the download endpoint rejects "..", and the
files endpoint performs the read of "a/b" on the stripped path only. -/
theorem C1_filename_validation_amended_witness :
    (Resp.status (handleRequest nameEx (Request.download (some ddName)) envEx stEmpty).1 =
      400 ∧
     (handleRequest nameEx (Request.download (some ddName)) envEx stEmpty).2.2 = []) ∧
    (FsOp.readOp (filePathOf (wsPathOf nameEx) slashName) = FsOp.statOp (wsPathOf nameEx) ∨
     opPath (FsOp.readOp (filePathOf (wsPathOf nameEx) slashName)) =
       filePathOf (wsPathOf nameEx) slashName) :=
  ⟨(C1_filename_validation_amended nameEx ddName slashName bodyReadSlash envEx stEmpty
      (by decide)).1 (Or.inr (by decide)),
   (C1_filename_validation_amended nameEx ddName slashName bodyReadSlash envEx stSlash
      (by decide)).2.2 (Or.inl rfl) (by decide)
      (FsOp.readOp (filePathOf (wsPathOf nameEx) slashName)) (by decide)⟩

end SandboxSrv
